import Mathlib

/-!
Verification of the mock market-maker cycle engine (`scripts/market-maker.mjs`).

The development shallowly embeds the script's request-signing helpers
(`buildQS`, `signedBody`), the per-pair trading cycle (`cycleForPair`), the
per-pair failure accounting (`applyOutcome`, `pairCycleStep`), the multi-pair
tick (`tickAll`, `runTicks`), and the `setInterval`-based scheduler timing.

Modelling conventions:
* JavaScript numbers used for prices/quantities are modelled as exact
  rationals; the `toFixed(4)` wire formatting is display-only and is not
  modelled (all claimed price points are exactly representable).
* A JS number that may be `NaN` (the result of `parseFloat`) is modelled as
  `Option ℚ`, `none` standing for `NaN`; `jsFalsy` models the `!x` test,
  which is true exactly for `NaN` and `0`.
* `localeCompare` on the parameter keys this script sends (ASCII identifiers
  such as "productId", "quantity", "side", "symbol", "timeInForce",
  "timestamp", "type", "price") agrees with code-unit lexicographic order,
  which is how the sort comparator is modelled (`charsLe`).
* HTTP interactions are abstracted by a `CycleEnv` record holding the
  responses the remote ends return; `res.ok` is `200 ≤ status < 300`.
* The Ed25519 signature primitive (`node:crypto`) is external to the
  repository and is modelled as an abstract function `String → String`
  passed as a parameter.
-/

/-! ### Percent-encoding (encodeURIComponent) -/

/-- Characters `encodeURIComponent` leaves unescaped:
`A-Z a-z 0-9 - _ . ! ~ * ' ( )`. -/
def unreservedChar (c : Char) : Bool :=
  (65 ≤ c.toNat && c.toNat ≤ 90) ||
  (97 ≤ c.toNat && c.toNat ≤ 122) ||
  (48 ≤ c.toNat && c.toNat ≤ 57) ||
  [45, 95, 46, 33, 126, 42, 39, 40, 41].contains c.toNat

/-- Uppercase hexadecimal digit, as emitted by `encodeURIComponent`. -/
def hexDigit : Nat → Char
  | 0 => '0'
  | 1 => '1'
  | 2 => '2'
  | 3 => '3'
  | 4 => '4'
  | 5 => '5'
  | 6 => '6'
  | 7 => '7'
  | 8 => '8'
  | 9 => '9'
  | 10 => 'A'
  | 11 => 'B'
  | 12 => 'C'
  | 13 => 'D'
  | 14 => 'E'
  | 15 => 'F'
  | _ => '0'

/-- UTF-8 bytes of a character (standard encoding arithmetic). -/
def utf8Bytes (c : Char) : List Nat :=
  let n := c.toNat
  if n < 128 then [n]
  else if n < 2048 then [192 + n / 64, 128 + n % 64]
  else if n < 65536 then [224 + n / 4096, 128 + (n / 64) % 64, 128 + n % 64]
  else [240 + n / 262144, 128 + (n / 4096) % 64, 128 + (n / 64) % 64, 128 + n % 64]

/-- Percent-escape of one byte: `%XX`. -/
def pctByte (b : Nat) : List Char :=
  ['%', hexDigit (b / 16), hexDigit (b % 16)]

/-- Encoding of one character: kept if unreserved, otherwise each UTF-8 byte
is percent-escaped. -/
def encChar (c : Char) : List Char :=
  if unreservedChar c then [c] else (utf8Bytes c).flatMap pctByte

/-- `encodeURIComponent` over a character list. -/
def encodeChars (s : List Char) : List Char :=
  s.flatMap encChar

/-- `encodeURIComponent`. -/
def encodeURIComponent (s : String) : String :=
  ⟨encodeChars s.data⟩

/-! ### Decimal rendering of the millisecond timestamp

`Date.now()` is a JS number; interpolating it into the query string renders
its decimal digits. `natToString` is that decimal rendering, implemented with
a structural fuel argument so that it evaluates by kernel reduction. -/

/-- Decimal digit character. -/
def decDigit : Nat → Char
  | 0 => '0'
  | 1 => '1'
  | 2 => '2'
  | 3 => '3'
  | 4 => '4'
  | 5 => '5'
  | 6 => '6'
  | 7 => '7'
  | 8 => '8'
  | 9 => '9'
  | _ => '0'

/-- Fuel-driven accumulator loop producing the decimal digits of `n` in front
of `acc`. -/
def natCharsAux : Nat → Nat → List Char → List Char
  | 0, _, acc => acc
  | fuel + 1, n, acc =>
    if n = 0 then acc else natCharsAux fuel (n / 10) (decDigit (n % 10) :: acc)

/-- Decimal rendering of a natural number (the JS string of `Date.now()`). -/
def natToString (n : Nat) : String :=
  if n = 0 then "0" else ⟨natCharsAux (n + 1) n []⟩

/-! ### Canonical query string (`buildQS`, lines 96-102) -/

/-- Parameter entries: key plus value, `none` standing for JS `undefined`. -/
abbrev Params := List (String × Option String)

/-- `filter(([, v]) => v !== undefined)`. -/
def dropUnset (l : Params) : Params :=
  l.filter fun kv => kv.2.isSome

/-- Code-unit lexicographic comparison of character lists (the order in which
`a.localeCompare(b)` ranks the ASCII parameter keys this script sends). -/
def charsLe : List Char → List Char → Bool
  | [], _ => true
  | _ :: _, [] => false
  | a :: as, b :: bs =>
    if a.toNat = b.toNat then charsLe as bs else decide (a.toNat < b.toNat)

/-- Key comparison used by `sort(([a], [b]) => a.localeCompare(b))`,
modelled at the code-unit level (see header note). -/
def keyLe (p q : String × Option String) : Prop :=
  charsLe p.1.data q.1.data = true

instance : DecidableRel keyLe := fun p q =>
  inferInstanceAs (Decidable (charsLe p.1.data q.1.data = true))

/-- Rendering of one kept entry: `encodeURIComponent(k)=encodeURIComponent(v)`.
The `none` arm is unreachable because entries are filtered first. -/
def entryChars : String × Option String → List Char
  | (k, some v) => encodeChars k.data ++ '=' :: encodeChars v.data
  | (k, none) => encodeChars k.data ++ '=' :: []

/-- `join("&")` on rendered entries. -/
def joinAmp : List (List Char) → List Char
  | [] => []
  | [p] => p
  | p :: ps => p ++ '&' :: joinAmp ps

/-- `buildQS`: drop unset entries, sort the rest by key, render each as a
percent-encoded `key=value` pair and join with `&`. -/
def buildQS (params : Params) : String :=
  ⟨joinAmp (((dropUnset params).insertionSort keyLe).map entryChars)⟩

/-! ### Signed body (`signedBody`, lines 104-108) -/

/-- `{ ...params, timestamp: Date.now() }`: any existing `timestamp` entry is
overridden by the current time. (Object spread keeps an overridden key at its
original position, but `buildQS` sorts by key, so only the entry set matters.) -/
def withTimestamp (params : Params) (now : Nat) : Params :=
  (params.filter fun kv => kv.1 ≠ "timestamp") ++
    [("timestamp", some (natToString now))]

/-- The canonical string that gets signed: `buildQS({...params, timestamp})`. -/
def signingString (params : Params) (now : Nat) : String :=
  buildQS (withTimestamp params now)

/-- `signedBody`: canonical string with the base64 signature appended as a
trailing percent-encoded `signature` field. The signing primitive is an
abstract parameter (Ed25519 via `node:crypto` lies outside the repository). -/
def signedBody (signFn : String → String) (params : Params) (now : Nat) : String :=
  let qs := signingString params now
  qs ++ "&signature=" ++ encodeURIComponent (signFn qs)

/-! ### Pair configuration and symbol translation -/

/-- A configured trading pair (`PAIRS` entries, lines 47-52). -/
structure Pair where
  symbol : String
  productId : Nat
  spread : ℚ
  quantity : ℚ
  deriving DecidableEq

/-- Remove the first occurrence of a character
(JS `String.replace` with a string pattern replaces only the first match). -/
def removeFirst (c : Char) : List Char → List Char
  | [] => []
  | x :: xs => if x = c then xs else x :: removeFirst c xs

/-- Backend symbol from `getSymbols` (lines 64-68): a hyphenated pair becomes
a concatenated symbol suffixed `PERP`; a slash pair just loses the slash. -/
def backendSymbol (s : String) : String :=
  if s.data.contains '-' then ⟨removeFirst '-' s.data ++ ['P', 'E', 'R', 'P']⟩
  else ⟨removeFirst '/' s.data⟩

/-! ### Per-pair cycle engine (`cycleForPair`, lines 159-239)

The remote ends are abstracted by `CycleEnv`: the oracle's parsed answer and
the HTTP statuses returned to the cancel call and to each successive order
placement. -/

/-- A JS number that may be `NaN`: `none` is `NaN`. -/
abbrev JsNum := Option ℚ

/-- The JS falsiness test `!x` on a number: true for `NaN` and `0`. -/
def jsFalsy : JsNum → Bool
  | none => true
  | some q => q == 0

/-- Environment of one pair's cycle: what the network returns. -/
structure CycleEnv where
  /-- `res.ok` of the oracle HTTP call (Binance, or the backend for 0G). -/
  oracleOk : Bool
  /-- Non-0G pairs: `parseFloat(binanceData.markPrice)` (`none` = `NaN`). -/
  binanceParsed : JsNum
  /-- 0G pair: `some v` if `item && item.markPrice` was truthy and assigned
  `markPrice = parseFloat(item.markPrice) = v`; `none` if it stayed unset. -/
  backendAssigned : Option JsNum
  /-- HTTP status of the DELETE `/fapi/v1/openOrders` call. -/
  cancelStatus : Nat
  /-- HTTP status of the k-th POST `/fapi/v1/order` call of this cycle. -/
  placeStatus : Nat → Nat

/-- Mark-price resolution (lines 164-183): `some` = the validated price,
`none` = a thrown cycle-level error. The `0G-USDC` branch substitutes the
fallback price `0.04` whenever the backend value is unset, `NaN` or `0`. -/
def resolveMarkPrice (pair : Pair) (env : CycleEnv) : Option ℚ :=
  let fetched : Option JsNum :=
    if pair.symbol = "0G-USDC" then
      let assigned := if env.oracleOk then env.backendAssigned else none
      some (match assigned with
            | some v => if jsFalsy v then some (4 / 100 : ℚ) else v
            | none => some (4 / 100 : ℚ))
    else
      if env.oracleOk then some env.binanceParsed else none
  match fetched with
  | none => none
  | some v => if jsFalsy v then none else v

/-- A request sent to the exchange. -/
inductive Req where
  | cancelAll (symbol : String)
  | place (productId : Nat) (symbol : String) (side : String) (type : String)
      (timeInForce : Option String) (price : Option ℚ) (quantity : ℚ)
  deriving DecidableEq

/-- How one pair's cycle ends. -/
inductive CycleOutcome where
  /-- All steps ran; `consecutiveErrors` is reset. -/
  | success
  /-- A thrown error reached the `catch` block (line 225). -/
  | failure
  /-- `process.exit(code)` was called inside `placeOrder`. -/
  | exit (code : Nat)
  deriving DecidableEq

/-- `res.ok` of `fetch`: status in the 2xx range. -/
def isOkStatus (s : Nat) : Bool :=
  200 ≤ s && s < 300

/-- What `placeOrder` (lines 115-136) does with a response status:
2xx returns normally, 401 exits the process with status 0, anything else
throws. -/
inductive PlaceResult where
  | ok
  | exit0
  | thrown
  deriving DecidableEq

/-- Response handling of `placeOrder` (lines 126-135). -/
def placeResult (status : Nat) : PlaceResult :=
  if isOkStatus status then .ok
  else if status = 401 then .exit0
  else .thrown

/-- Ladder bid price: `markPrice * (1 - pair.spread * i)` (line 198). -/
def bidPrice (mark spread : ℚ) (i : Nat) : ℚ :=
  mark * (1 - spread * i)

/-- Ladder ask price: `markPrice * (1 + pair.spread * i)` (line 207). -/
def askPrice (mark spread : ℚ) (i : Nat) : ℚ :=
  mark * (1 + spread * i)

/-- Level quantity: `quantity * (1 + (i - 1) * 0.5)` (lines 199, 208). -/
def levelQty (qty : ℚ) (i : Nat) : ℚ :=
  qty * (1 + ((i : ℚ) - 1) * (1 / 2))

/-- Level-i BUY LIMIT GTC ladder order (line 201). -/
def bidReq (pair : Pair) (mark : ℚ) (i : Nat) : Req :=
  .place pair.productId (backendSymbol pair.symbol) "BUY" "LIMIT" (some "GTC")
    (some (bidPrice mark pair.spread i)) (levelQty pair.quantity i)

/-- Level-i SELL LIMIT GTC ladder order (line 210). -/
def askReq (pair : Pair) (mark : ℚ) (i : Nat) : Req :=
  .place pair.productId (backendSymbol pair.symbol) "SELL" "LIMIT" (some "GTC")
    (some (askPrice mark pair.spread i)) (levelQty pair.quantity i)

/-- Self-cross order at the exact mark price with the unscaled configured
quantity (lines 215-221). -/
def matchReq (pair : Pair) (mark : ℚ) (side : String) : Req :=
  .place pair.productId (backendSymbol pair.symbol) side "LIMIT" (some "GTC")
    (some mark) pair.quantity

/-- The placements a successful cycle issues, in program order:
bid levels 1..LEVELS, ask levels 1..LEVELS, then the self-cross pair. -/
def plannedPlacements (levels : Nat) (pair : Pair) (mark : ℚ) : List Req :=
  ((List.range levels).map fun j => bidReq pair mark (j + 1)) ++
  ((List.range levels).map fun j => askReq pair mark (j + 1)) ++
  [matchReq pair mark "BUY", matchReq pair mark "SELL"]

/-- Issue placements sequentially starting at call index `k`; stop at the
first non-2xx response (401 exits, anything else throws). Each attempted
request is recorded exactly once. -/
def runPlacements (statuses : Nat → Nat) : Nat → List Req → List Req × CycleOutcome
  | _, [] => ([], .success)
  | k, r :: rest =>
    match placeResult (statuses k) with
    | .ok =>
      let p := runPlacements statuses (k + 1) rest
      (r :: p.1, p.2)
    | .exit0 => ([r], .exit 0)
    | .thrown => ([r], .failure)

/-- Result of one pass through the `try` block of `cycleForPair`. -/
structure CycleResult where
  /-- The exchange requests issued, in order. -/
  requests : List Req
  /-- `some true` if the cancel response was non-2xx (logged "skipped"),
  `some false` if it was 2xx ("done"), `none` if cancellation was never
  reached. -/
  cancelSkipped : Option Bool
  outcome : CycleOutcome
  deriving DecidableEq

/-- One cycle for one pair (lines 159-223): resolve the mark price (a bad
price aborts with no request), fire the cancel (its status only affects the
log), then run the ladder and self-cross placements in order. -/
def cycleForPair (levels : Nat) (pair : Pair) (env : CycleEnv) : CycleResult :=
  match resolveMarkPrice pair env with
  | none => ⟨[], none, .failure⟩
  | some mark =>
    let p := runPlacements env.placeStatus 0 (plannedPlacements levels pair mark)
    ⟨Req.cancelAll (backendSymbol pair.symbol) :: p.1,
     some (!isOkStatus env.cancelStatus), p.2⟩

/-! ### Failure accounting (lines 224-238) -/

/-- Messages pushed to the alert sink. -/
inductive Alert where
  /-- The per-cycle warning sent from the `catch` block. -/
  | warn
  /-- A fatal message: threshold stop or the 401 credential-expiry message. -/
  | fatal
  deriving DecidableEq

/-- Counter/alert/exit bookkeeping around one cycle outcome: success resets
`consecutiveErrors`; a caught failure increments it, warns, and exits the
whole process with status 1 when the threshold is reached; a 401 inside
`placeOrder` alerts and exits with its code before the catch runs. -/
def applyOutcome (maxErrors c : Nat) : CycleOutcome → Nat × List Alert × Option Nat
  | .success => (0, [], none)
  | .failure =>
    if c + 1 ≥ maxErrors then (c + 1, [.warn, .fatal], some 1)
    else (c + 1, [.warn], none)
  | .exit k => (c, [.fatal], some k)

/-- Net effect of one pair's cycle on the process. -/
structure StepResult where
  requests : List Req
  counter : Nat
  alerts : List Alert
  exitCode : Option Nat
  deriving DecidableEq

/-- One full `cycleForPair` call: the cycle itself plus failure accounting
against the pair's `consecutiveErrors` value `c`. -/
def pairCycleStep (maxErrors levels : Nat) (pair : Pair) (c : Nat)
    (env : CycleEnv) : StepResult :=
  let r := cycleForPair levels pair env
  let a := applyOutcome maxErrors c r.outcome
  ⟨r.requests, a.1, a.2.1, a.2.2⟩

/-! ### Multi-pair tick and process run (`cycleAll`, lines 241-249) -/

/-- One tick: every configured pair's cycle engine runs on its own state and
environment (`Promise.allSettled(PAIRS.map(cycleForPair))`). -/
def tickAll (maxErrors levels : Nat) (pairs : List Pair) (states : List Nat)
    (envs : List CycleEnv) : List StepResult :=
  List.zipWith (fun pc env => pairCycleStep maxErrors levels pc.1 pc.2 env)
    (pairs.zip states) envs

/-- First exit code requested during a tick, if any. -/
def tickExit (rs : List StepResult) : Option Nat :=
  (rs.filterMap fun r => r.exitCode).head?

/-- Run successive ticks over given per-tick environments; an exit requested
in a tick terminates the whole process (every pair stops). -/
def runTicks (maxErrors levels : Nat) (pairs : List Pair) :
    List Nat → List (List CycleEnv) → List Nat × Option Nat
  | states, [] => (states, none)
  | states, envs :: rest =>
    let rs := tickAll maxErrors levels pairs states envs
    match tickExit rs with
    | some code => (rs.map fun r => r.counter, some code)
    | none => runTicks maxErrors levels pairs (rs.map fun r => r.counter) rest

/-! ### Scheduler timing (lines 271-273)

`await cycleAll()` runs tick 0 immediately and to completion; only then is
`timer = setInterval(cycleAll, INTERVAL_MS)` installed, so tick `k ≥ 1`
starts at `dur 0 + k * INTERVAL_MS` — the interval timer fires on the fixed
schedule whether or not the previous tick has drained. A tick lasts until
every pair's engine settles (`Promise.allSettled`), i.e. the maximum of its
pairs' durations. -/

/-- Start time of tick `k` given the interval and the first tick's duration. -/
def tickStart (intervalMs d0 : Nat) : Nat → Nat
  | 0 => 0
  | k + 1 => d0 + (k + 1) * intervalMs

/-- End time of tick `k` under per-tick durations `dur`. -/
def tickEnd (intervalMs : Nat) (dur : Nat → Nat) (k : Nat) : Nat :=
  tickStart intervalMs (dur 0) k + dur k

/-- Duration of one tick: the tick settles when its slowest pair settles. -/
def tickDuration (pairDurs : List Nat) : Nat :=
  pairDurs.foldr max 0

/-! ### Concrete values used by witnesses -/

/-- `PAIRS[0]` of the script (line 48). -/
def demoPair : Pair :=
  ⟨"BTC-USDC", 2, 1 / 1000, 123 / 10000⟩

/-- `PAIRS[3]` of the script (line 51), the pair priced by the backend. -/
def pair0G : Pair :=
  ⟨"0G-USDC", 8, 1 / 1000, 100⟩

/-- Everything succeeds; Binance answers 50000. -/
def envOk : CycleEnv :=
  ⟨true, some 50000, none, 200, fun _ => 200⟩

/-- The oracle HTTP call itself fails. -/
def envFail : CycleEnv :=
  ⟨false, none, none, 200, fun _ => 200⟩

/-- Price resolves but the first placement answers 401. -/
def env401 : CycleEnv :=
  ⟨true, some 50000, none, 200, fun _ => 401⟩

/-- Binance answers a parsed price of `0`. -/
def envZeroPrice : CycleEnv :=
  ⟨true, some 0, none, 200, fun _ => 200⟩

/-- The backend oracle answers a parsed price of `0` (for the 0G pair). -/
def env0gZero : CycleEnv :=
  ⟨true, none, some (some 0), 200, fun _ => 200⟩

/-! ### Further canonicalization notions (used to reason about `buildQS`) -/

/-- Strict key order: `keyLe` plus distinct keys. On key-distinct entry lists
a `keyLe`-sorted list is `keyLt`-sorted, and `keyLt` is vacuously
antisymmetric, which pins the sorted order down uniquely. -/
def keyLt (p q : String × Option String) : Prop :=
  keyLe p q ∧ p.1 ≠ q.1

/-- The rendered entries of `buildQS`, before joining with `&`. -/
def sortedEntries (l : Params) : List (List Char) :=
  ((dropUnset l).insertionSort keyLe).map entryChars

/-- Split a character list at every `&` (inverse of `joinAmp` on
ampersand-free parts). -/
def splitAmp : List Char → List (List Char)
  | [] => [[]]
  | c :: rest =>
    match splitAmp rest with
    | [] => [[c]]
    | p :: ps => if c = '&' then [] :: p :: ps else (c :: p) :: ps

/-- Big-endian decimal digits of `n` (empty for 0); the specification-level
form of `natCharsAux` used in proofs. -/
def digitsRec : Nat → List Char
  | 0 => []
  | n + 1 => digitsRec ((n + 1) / 10) ++ [decDigit ((n + 1) % 10)]
  decreasing_by
    simp_wf
    omega

/-- Decimal value of a digit string (left inverse of the rendering). -/
def charsToNat (l : List Char) : Nat :=
  l.foldl (fun a c => a * 10 + (c.toNat - 48)) 0

/-- A concrete deterministic stand-in for the abstract signing function. -/
def idSign : String → String :=
  fun s => s

/-- A concrete business-parameter set (an order body without timestamp). -/
def demoParams : Params :=
  [("symbol", some "BTCUSDCPERP")]

/-- Concrete tick durations: tick 1 takes 40 s, every other tick 10 s. -/
def overlapDurs : Nat → Nat :=
  fun k => if k = 1 then 40000 else 10000

/-! ### Properties of the key comparator -/

theorem charsLe_total : ∀ a b : List Char, charsLe a b = true ∨ charsLe b a = true
  | [], _ => Or.inl rfl
  | _ :: _, [] => Or.inr rfl
  | a :: as, b :: bs => by
    simp only [charsLe]
    rcases Nat.lt_trichotomy a.toNat b.toNat with h | h | h
    · left
      rw [if_neg (Nat.ne_of_lt h)]
      exact decide_eq_true h
    · rw [if_pos h, if_pos h.symm]
      exact charsLe_total as bs
    · right
      rw [if_neg (Nat.ne_of_lt h)]
      exact decide_eq_true h

theorem charsLe_trans : ∀ {a b c : List Char},
    charsLe a b = true → charsLe b c = true → charsLe a c = true
  | [], _, _, _, _ => rfl
  | _ :: _, [], _, h, _ => by simp [charsLe] at h
  | _ :: _, _ :: _, [], _, h2 => by simp [charsLe] at h2
  | a :: as, b :: bs, c :: cs, h1, h2 => by
    simp only [charsLe] at h1 h2 ⊢
    by_cases hab : a.toNat = b.toNat
    · by_cases hbc : b.toNat = c.toNat
      · rw [if_pos hab] at h1
        rw [if_pos hbc] at h2
        rw [if_pos (hab.trans hbc)]
        exact charsLe_trans h1 h2
      · rw [if_neg hbc] at h2
        have hlt : b.toNat < c.toNat := of_decide_eq_true h2
        rw [if_neg (hab ▸ hbc)]
        exact decide_eq_true (hab ▸ hlt)
    · rw [if_neg hab] at h1
      have hlt : a.toNat < b.toNat := of_decide_eq_true h1
      by_cases hbc : b.toNat = c.toNat
      · rw [if_neg (hbc ▸ hab)]
        exact decide_eq_true (hbc ▸ hlt)
      · rw [if_neg hbc] at h2
        have hlt2 : b.toNat < c.toNat := of_decide_eq_true h2
        have : a.toNat < c.toNat := hlt.trans hlt2
        rw [if_neg (Nat.ne_of_lt this)]
        exact decide_eq_true this

theorem charsLe_antisymm : ∀ {a b : List Char},
    charsLe a b = true → charsLe b a = true → a = b
  | [], [], _, _ => rfl
  | [], _ :: _, _, h2 => by simp [charsLe] at h2
  | _ :: _, [], h1, _ => by simp [charsLe] at h1
  | a :: as, b :: bs, h1, h2 => by
    simp only [charsLe] at h1 h2
    by_cases hab : a.toNat = b.toNat
    · rw [if_pos hab] at h1
      rw [if_pos hab.symm] at h2
      have heq : a = b := Char.ext (UInt32.ext_iff.mpr (by
        have := hab
        simpa [Char.toNat] using this))
      rw [heq, charsLe_antisymm h1 h2]
    · rw [if_neg hab] at h1
      rw [if_neg (fun h => hab h.symm)] at h2
      have := of_decide_eq_true h1
      have := of_decide_eq_true h2
      omega

instance : IsTotal (String × Option String) keyLe :=
  ⟨fun a b => charsLe_total a.1.data b.1.data⟩

instance : IsTrans (String × Option String) keyLe :=
  ⟨fun _ _ _ h h2 => charsLe_trans h h2⟩

/-! ### Helper lemmas about the cycle engine -/

theorem resolveMarkPrice_set_cancel (pair : Pair) (env : CycleEnv) (s : Nat) :
    resolveMarkPrice pair { env with cancelStatus := s } = resolveMarkPrice pair env := rfl

theorem runPlacements_ok (statuses : Nat → Nat) :
    ∀ (reqs : List Req) (k : Nat),
      (∀ j, j < reqs.length → isOkStatus (statuses (k + j)) = true) →
      runPlacements statuses k reqs = (reqs, CycleOutcome.success)
  | [], _, _ => rfl
  | r :: rest, k, h => by
    have h0 : isOkStatus (statuses k) = true := by simpa using h 0 (Nat.succ_pos _)
    have ih := runPlacements_ok statuses rest (k + 1) (fun j hj => by
      have := h (j + 1) (by simpa using Nat.succ_lt_succ hj)
      rwa [show k + (j + 1) = k + 1 + j by omega] at this)
    simp [runPlacements, placeResult, h0, ih]

theorem runPlacements_exit0 (statuses : Nat → Nat) :
    ∀ (reqs : List Req) (k i : Nat), i < reqs.length →
      (∀ j, j < i → isOkStatus (statuses (k + j)) = true) →
      placeResult (statuses (k + i)) = PlaceResult.exit0 →
      runPlacements statuses k reqs = (reqs.take (i + 1), CycleOutcome.exit 0)
  | [], _, _, h, _, _ => absurd h (by simp)
  | r :: rest, k, 0, _, _, hres => by
    rw [Nat.add_zero] at hres
    simp [runPlacements, hres]
  | r :: rest, k, i + 1, hlen, hok, hres => by
    have h0 : isOkStatus (statuses k) = true := by simpa using hok 0 (Nat.succ_pos _)
    have ih := runPlacements_exit0 statuses rest (k + 1) i
      (by simpa using Nat.lt_of_succ_lt_succ hlen)
      (fun j hj => by
        have := hok (j + 1) (by omega)
        rwa [show k + (j + 1) = k + 1 + j by omega] at this)
      (by rwa [show k + (i + 1) = k + 1 + i by omega] at hres)
    simp [runPlacements, placeResult, h0, ih]

theorem plannedPlacements_length (levels : Nat) (pair : Pair) (mark : ℚ) :
    (plannedPlacements levels pair mark).length = 2 * levels + 2 := by
  simp [plannedPlacements]
  omega

theorem cycleForPair_success (levels : Nat) (pair : Pair) (env : CycleEnv) (mark : ℚ)
    (hmark : resolveMarkPrice pair env = some mark)
    (hok : ∀ j, j < 2 * levels + 2 → isOkStatus (env.placeStatus j) = true) :
    cycleForPair levels pair env =
      ⟨Req.cancelAll (backendSymbol pair.symbol) :: plannedPlacements levels pair mark,
       some (!isOkStatus env.cancelStatus), .success⟩ := by
  have hrun := runPlacements_ok env.placeStatus (plannedPlacements levels pair mark) 0
    (fun j hj => by
      have hj2 : j < 2 * levels + 2 := by rwa [plannedPlacements_length] at hj
      simpa using hok j hj2)
  simp [cycleForPair, hmark, hrun]

/-! ### The claims -/

/-- C2: for every level `i` in `1..LEVELS` the ladder places the BUY order at
`markPrice * (1 - spread * i)` and the SELL order at
`markPrice * (1 + spread * i)`, each with quantity
`quantity * (1 + (i - 1) * 0.5)`; in particular, for markPrice 50000 and
spread 0.001, level 1 gives bid 49950 and ask 50050, level 3 gives bid 49850
and ask 50150 with twice the configured quantity. -/
theorem ladder_prices_spec (levels : Nat) (pair : Pair) (mark : ℚ) (i : Nat)
    (h1 : 1 ≤ i) (h2 : i ≤ levels) :
    (plannedPlacements levels pair mark)[i - 1]? =
      some (Req.place pair.productId (backendSymbol pair.symbol) "BUY" "LIMIT" (some "GTC")
        (some (mark * (1 - pair.spread * i))) (pair.quantity * (1 + ((i : ℚ) - 1) * (1 / 2)))) ∧
    (plannedPlacements levels pair mark)[levels + (i - 1)]? =
      some (Req.place pair.productId (backendSymbol pair.symbol) "SELL" "LIMIT" (some "GTC")
        (some (mark * (1 + pair.spread * i))) (pair.quantity * (1 + ((i : ℚ) - 1) * (1 / 2)))) ∧
    bidPrice 50000 (1 / 1000) 1 = 49950 ∧ askPrice 50000 (1 / 1000) 1 = 50050 ∧
    bidPrice 50000 (1 / 1000) 3 = 49850 ∧ askPrice 50000 (1 / 1000) 3 = 50150 ∧
    levelQty pair.quantity 3 = 2 * pair.quantity := by
  obtain ⟨n, rfl⟩ : ∃ n, i = n + 1 := ⟨i - 1, by omega⟩
  have hn : n < levels := by omega
  simp only [Nat.add_sub_cancel]
  refine ⟨?_, ?_, ?_, ?_, ?_, ?_, ?_⟩
  · have hAB : n < (((List.range levels).map fun j => bidReq pair mark (j + 1)) ++
        ((List.range levels).map fun j => askReq pair mark (j + 1))).length := by
      simp
      omega
    have hA : n < ((List.range levels).map fun j => bidReq pair mark (j + 1)).length := by
      simpa using hn
    rw [plannedPlacements, List.getElem?_append_left hAB, List.getElem?_append_left hA,
      List.getElem?_map, List.getElem?_range hn]
    rfl
  · have hAB : levels + n < (((List.range levels).map fun j => bidReq pair mark (j + 1)) ++
        ((List.range levels).map fun j => askReq pair mark (j + 1))).length := by
      simp
      omega
    have hA : ((List.range levels).map fun j => bidReq pair mark (j + 1)).length ≤
        levels + n := by
      simp
    rw [plannedPlacements, List.getElem?_append_left hAB, List.getElem?_append_right hA]
    rw [show levels + n - ((List.range levels).map
      fun j => bidReq pair mark (j + 1)).length = n by simp]
    rw [List.getElem?_map, List.getElem?_range hn]
    rfl
  · norm_num [bidPrice]
  · norm_num [askPrice]
  · norm_num [bidPrice]
  · norm_num [askPrice]
  · simp only [levelQty]
    push_cast
    ring

/-- Witness for C2 at `levels = 5`, `pair = demoPair`, `mark = 50000`,
`i = 3`. -/
theorem ladder_prices_spec_witness :
    (plannedPlacements 5 demoPair 50000)[3 - 1]? =
      some (Req.place demoPair.productId (backendSymbol demoPair.symbol) "BUY" "LIMIT"
        (some "GTC") (some (50000 * (1 - demoPair.spread * ((3 : Nat) : ℚ))))
        (demoPair.quantity * (1 + (((3 : Nat) : ℚ) - 1) * (1 / 2)))) ∧
    (plannedPlacements 5 demoPair 50000)[5 + (3 - 1)]? =
      some (Req.place demoPair.productId (backendSymbol demoPair.symbol) "SELL" "LIMIT"
        (some "GTC") (some (50000 * (1 + demoPair.spread * ((3 : Nat) : ℚ))))
        (demoPair.quantity * (1 + (((3 : Nat) : ℚ) - 1) * (1 / 2)))) ∧
    bidPrice 50000 (1 / 1000) 1 = 49950 ∧ askPrice 50000 (1 / 1000) 1 = 50050 ∧
    bidPrice 50000 (1 / 1000) 3 = 49850 ∧ askPrice 50000 (1 / 1000) 3 = 50150 ∧
    levelQty demoPair.quantity 3 = 2 * demoPair.quantity :=
  ladder_prices_spec 5 demoPair 50000 3 (by norm_num) (by norm_num)

/-- C3: a failed cycle increments the pair's `consecutiveErrors`, emits a
warning, and when the count reaches `MAX_ERRORS` additionally emits a fatal
alert and exits the process with status 1 (which stops every pair: the run
processes no further tick); a fully successful cycle resets the counter to 0
with no alert and no exit. -/
theorem error_threshold_policy (maxErrors levels c : Nat) (pair : Pair)
    (env : CycleEnv) (pairs : List Pair) (states : List Nat)
    (envs : List CycleEnv) (rest : List (List CycleEnv)) :
    ((cycleForPair levels pair env).outcome = CycleOutcome.failure →
      pairCycleStep maxErrors levels pair c env =
        ⟨(cycleForPair levels pair env).requests, c + 1,
         if c + 1 ≥ maxErrors then [Alert.warn, Alert.fatal] else [Alert.warn],
         if c + 1 ≥ maxErrors then some 1 else none⟩) ∧
    ((cycleForPair levels pair env).outcome = CycleOutcome.success →
      pairCycleStep maxErrors levels pair c env =
        ⟨(cycleForPair levels pair env).requests, 0, [], none⟩) ∧
    (tickExit (tickAll maxErrors levels pairs states envs) = some 1 →
      runTicks maxErrors levels pairs states (envs :: rest) =
        ((tickAll maxErrors levels pairs states envs).map fun r => r.counter,
          some 1)) := by
  refine ⟨fun h => ?_, fun h => ?_, fun h => ?_⟩
  · by_cases hm : c + 1 ≥ maxErrors <;>
      simp [pairCycleStep, h, applyOutcome, hm]
  · simp [pairCycleStep, h, applyOutcome]
  · simp [runTicks, h]

/-- Witness for C3: threshold 2 with one prior error; failure exits with 1,
success resets, the run stops at the fatal tick. -/
theorem error_threshold_policy_witness :
    pairCycleStep 2 5 demoPair 1 envFail = ⟨[], 2, [Alert.warn, Alert.fatal], some 1⟩ ∧
    pairCycleStep 2 5 demoPair 1 envOk =
      ⟨(cycleForPair 5 demoPair envOk).requests, 0, [], none⟩ ∧
    runTicks 2 5 [demoPair] [1] [[envFail], [envOk]] = ([2], some 1) := by
  refine ⟨?_, ?_, ?_⟩
  · exact (error_threshold_policy 2 5 1 demoPair envFail [] [] [] []).1 (by decide)
  · exact (error_threshold_policy 2 5 1 demoPair envOk [] [] [] []).2.1 (by decide)
  · exact (error_threshold_policy 2 5 1 demoPair envFail [demoPair] [1] [envFail]
      [[envOk]]).2.2 (by decide)

/-- C4: a 401 (credential-expiry) response to the `k`-th order placement of a
cycle makes `placeOrder` alert and exit the whole process with status 0; the
cycle's request trace ends at that single attempt (no retry: exactly `k + 2`
requests were sent) and the counter is untouched. -/
theorem credential_expiry_exit (maxErrors levels c k : Nat) (pair : Pair)
    (env : CycleEnv) (mark : ℚ)
    (hmark : resolveMarkPrice pair env = some mark)
    (hk : k < (plannedPlacements levels pair mark).length)
    (hok : ∀ j, j < k → isOkStatus (env.placeStatus j) = true)
    (h401 : env.placeStatus k = 401) :
    cycleForPair levels pair env =
      ⟨Req.cancelAll (backendSymbol pair.symbol) ::
        (plannedPlacements levels pair mark).take (k + 1),
       some (!isOkStatus env.cancelStatus), CycleOutcome.exit 0⟩ ∧
    (cycleForPair levels pair env).requests.length = k + 2 ∧
    pairCycleStep maxErrors levels pair c env =
      ⟨(cycleForPair levels pair env).requests, c, [Alert.fatal], some 0⟩ := by
  have hres : placeResult (env.placeStatus (0 + k)) = PlaceResult.exit0 := by
    rw [Nat.zero_add, h401]
    rfl
  have hrun := runPlacements_exit0 env.placeStatus (plannedPlacements levels pair mark)
    0 k hk (fun j hj => by simpa using hok j hj) hres
  have hcycle : cycleForPair levels pair env =
      ⟨Req.cancelAll (backendSymbol pair.symbol) ::
        (plannedPlacements levels pair mark).take (k + 1),
       some (!isOkStatus env.cancelStatus), CycleOutcome.exit 0⟩ := by
    simp [cycleForPair, hmark, hrun]
  refine ⟨hcycle, ?_, ?_⟩
  · rw [hcycle]
    simp [List.length_take]
    omega
  · simp [pairCycleStep, hcycle, applyOutcome]

/-- Witness for C4: the very first placement of a cycle answers 401. -/
theorem credential_expiry_exit_witness :
    cycleForPair 5 demoPair env401 =
      ⟨Req.cancelAll (backendSymbol demoPair.symbol) ::
        (plannedPlacements 5 demoPair 50000).take (0 + 1),
       some (!isOkStatus env401.cancelStatus), CycleOutcome.exit 0⟩ ∧
    (cycleForPair 5 demoPair env401).requests.length = 0 + 2 ∧
    pairCycleStep 5 5 demoPair 2 env401 =
      ⟨(cycleForPair 5 demoPair env401).requests, 2, [Alert.fatal], some 0⟩ :=
  credential_expiry_exit 5 5 2 0 demoPair env401 50000 rfl
    (by simp [plannedPlacements_length]) (fun j hj => absurd hj (Nat.not_lt_zero j)) rfl

/-- C5 (amended): for every pair priced by the external oracle (symbol other
than "0G-USDC"), a fetched price that parses to 0 or to a non-number raises a
cycle-level error: no request at all is issued that cycle and the pair's
`consecutiveErrors` is incremented. (The 0G-USDC pair instead substitutes the
fallback price 0.04 and proceeds — see the counterexample.) -/
theorem invalid_price_aborts_cycle (maxErrors levels c : Nat) (pair : Pair)
    (env : CycleEnv) (hsym : pair.symbol ≠ "0G-USDC") (hok : env.oracleOk = true)
    (hbad : env.binanceParsed = some 0 ∨ env.binanceParsed = none) :
    cycleForPair levels pair env = ⟨[], none, CycleOutcome.failure⟩ ∧
    pairCycleStep maxErrors levels pair c env =
      ⟨[], c + 1,
       if c + 1 ≥ maxErrors then [Alert.warn, Alert.fatal] else [Alert.warn],
       if c + 1 ≥ maxErrors then some 1 else none⟩ := by
  have hres : resolveMarkPrice pair env = none := by
    rcases hbad with hb | hb <;> simp [resolveMarkPrice, hsym, hok, hb, jsFalsy]
  have hcycle : cycleForPair levels pair env = ⟨[], none, CycleOutcome.failure⟩ := by
    simp [cycleForPair, hres]
  refine ⟨hcycle, ?_⟩
  by_cases hm : c + 1 ≥ maxErrors <;>
    simp [pairCycleStep, hcycle, applyOutcome, hm]

/-- Witness for C5 (amended): Binance parses to price 0 for BTC-USDC. -/
theorem invalid_price_aborts_cycle_witness :
    cycleForPair 5 demoPair envZeroPrice = ⟨[], none, CycleOutcome.failure⟩ ∧
    pairCycleStep 5 5 demoPair 0 envZeroPrice =
      ⟨[], 0 + 1,
       if 0 + 1 ≥ 5 then [Alert.warn, Alert.fatal] else [Alert.warn],
       if 0 + 1 ≥ 5 then some 1 else none⟩ :=
  invalid_price_aborts_cycle 5 5 0 demoPair envZeroPrice (by decide) rfl (Or.inl rfl)

/-- C5 counterexample: the claim fails for the pair "0G-USDC". Its backend
oracle call yields a parsed price of 0, yet the cycle does not raise an
error: the fallback price 0.04 is substituted, all 13 requests (cancel, 10
ladder orders, 2 self-cross orders) are issued, and the error counter stays
at 0. -/
theorem invalid_price_0g_counterexample :
    pair0G.symbol = "0G-USDC" ∧
    env0gZero.oracleOk = true ∧
    env0gZero.backendAssigned = some (some 0) ∧
    resolveMarkPrice pair0G env0gZero = some (4 / 100) ∧
    (cycleForPair 5 pair0G env0gZero).outcome = CycleOutcome.success ∧
    (cycleForPair 5 pair0G env0gZero).requests.length = 13 ∧
    (pairCycleStep 5 5 pair0G 0 env0gZero).counter = 0 := by
  have hres : resolveMarkPrice pair0G env0gZero = some (4 / 100) := by
    simp [resolveMarkPrice, pair0G, env0gZero, jsFalsy]
  have hcycle := cycleForPair_success 5 pair0G env0gZero (4 / 100) hres (fun _ _ => rfl)
  refine ⟨rfl, rfl, rfl, hres, ?_, ?_, ?_⟩
  · rw [hcycle]
  · rw [hcycle]
    simp [plannedPlacements_length]
  · simp [pairCycleStep, hcycle, applyOutcome]

/-- C6: a fully successful cycle issues, in strict order, one cancel-all
request, then the BUY ladder for levels 1..LEVELS, then the SELL ladder for
levels 1..LEVELS, then exactly one BUY and one SELL self-cross order at the
exact mark price with the unscaled configured quantity; the cancel response
status (2xx or not) does not change the requests or the outcome. -/
theorem cycle_request_order (levels : Nat) (pair : Pair) (env : CycleEnv)
    (mark : ℚ) (s : Nat) (hmark : resolveMarkPrice pair env = some mark)
    (hok : ∀ j, j < 2 * levels + 2 → isOkStatus (env.placeStatus j) = true) :
    cycleForPair levels pair env =
      ⟨Req.cancelAll (backendSymbol pair.symbol) ::
        (((List.range levels).map fun j => bidReq pair mark (j + 1)) ++
         ((List.range levels).map fun j => askReq pair mark (j + 1)) ++
         [matchReq pair mark "BUY", matchReq pair mark "SELL"]),
       some (!isOkStatus env.cancelStatus), CycleOutcome.success⟩ ∧
    (cycleForPair levels pair { env with cancelStatus := s }).requests =
      (cycleForPair levels pair env).requests ∧
    (cycleForPair levels pair { env with cancelStatus := s }).outcome =
      CycleOutcome.success := by
  have h1 := cycleForPair_success levels pair env mark hmark hok
  have h2 := cycleForPair_success levels pair { env with cancelStatus := s } mark
    (by rwa [resolveMarkPrice_set_cancel]) hok
  refine ⟨?_, ?_, ?_⟩
  · rw [h1]
    rfl
  · rw [h1, h2]
  · rw [h2]

/-- Witness for C6 at `demoPair`, all placements 2xx, cancel status 404. -/
theorem cycle_request_order_witness :
    cycleForPair 5 demoPair envOk =
      ⟨Req.cancelAll (backendSymbol demoPair.symbol) ::
        (((List.range 5).map fun j => bidReq demoPair 50000 (j + 1)) ++
         ((List.range 5).map fun j => askReq demoPair 50000 (j + 1)) ++
         [matchReq demoPair 50000 "BUY", matchReq demoPair 50000 "SELL"]),
       some (!isOkStatus envOk.cancelStatus), CycleOutcome.success⟩ ∧
    (cycleForPair 5 demoPair { envOk with cancelStatus := 404 }).requests =
      (cycleForPair 5 demoPair envOk).requests ∧
    (cycleForPair 5 demoPair { envOk with cancelStatus := 404 }).outcome =
      CycleOutcome.success :=
  cycle_request_order 5 demoPair envOk 50000 404 rfl (fun _ _ => rfl)

/-- C9: pair isolation. The step result of pair `j` in a tick is unchanged
when pair `i`'s environment is replaced by anything (in particular a failing
one), and it is a function of pair `j`'s own configuration, own error counter
and own environment alone. -/
theorem pair_state_isolation (maxErrors levels : Nat) (pairs : List Pair)
    (states : List Nat) (envs : List CycleEnv) (i j : Nat) (e : CycleEnv)
    (hij : i ≠ j) :
    (tickAll maxErrors levels pairs states (envs.set i e))[j]? =
      (tickAll maxErrors levels pairs states envs)[j]? ∧
    (tickAll maxErrors levels pairs states envs)[j]? =
      (match (pairs.zip states)[j]?, envs[j]? with
       | some pc, some env => some (pairCycleStep maxErrors levels pc.1 pc.2 env)
       | _, _ => none) := by
  have key : ∀ es : List CycleEnv, (tickAll maxErrors levels pairs states es)[j]? =
      (match (pairs.zip states)[j]?, es[j]? with
       | some pc, some env => some (pairCycleStep maxErrors levels pc.1 pc.2 env)
       | _, _ => none) := fun es => by
    rcases h1 : (pairs.zip states)[j]? with _ | pc <;>
      rcases h2 : es[j]? with _ | env <;>
        simp [tickAll, List.getElem?_zipWith, h1, h2]
  refine ⟨?_, key envs⟩
  rw [key (envs.set i e), key envs, List.getElem?_set_ne hij]

/-- Witness for C9: replacing pair 0's environment by a failing one leaves
pair 1's step result unchanged. -/
theorem pair_state_isolation_witness :
    (tickAll 3 2 [demoPair, pair0G] [0, 0] ([envOk, env0gZero].set 0 envFail))[1]? =
      (tickAll 3 2 [demoPair, pair0G] [0, 0] [envOk, env0gZero])[1]? ∧
    (tickAll 3 2 [demoPair, pair0G] [0, 0] [envOk, env0gZero])[1]? =
      (match ([demoPair, pair0G].zip [0, 0])[1]?, [envOk, env0gZero][1]? with
       | some pc, some env => some (pairCycleStep 3 2 pc.1 pc.2 env)
       | _, _ => none) :=
  pair_state_isolation 3 2 [demoPair, pair0G] [0, 0] [envOk, env0gZero] 0 1 envFail
    (by decide)

/-- C10: a 401 to the cancel-all call is not special-cased: like any non-2xx
cancel response it only makes the log say "skipped" — the requests issued
and the outcome are the same as under any other cancel status, and the
process does not exit because of it. Only `placeOrder` treats 401 as the
credential-expiry exit. -/
theorem cancel_401_nonfatal (levels : Nat) (pair : Pair) (env : CycleEnv)
    (mark : ℚ) (s : Nat) (hmark : resolveMarkPrice pair env = some mark) :
    (cycleForPair levels pair { env with cancelStatus := 401 }).requests =
      (cycleForPair levels pair { env with cancelStatus := s }).requests ∧
    (cycleForPair levels pair { env with cancelStatus := 401 }).outcome =
      (cycleForPair levels pair { env with cancelStatus := s }).outcome ∧
    (cycleForPair levels pair { env with cancelStatus := 401 }).cancelSkipped =
      some true ∧
    placeResult 401 = PlaceResult.exit0 := by
  have h401 : resolveMarkPrice pair { env with cancelStatus := 401 } = some mark := by
    rwa [resolveMarkPrice_set_cancel]
  have hs : resolveMarkPrice pair { env with cancelStatus := s } = some mark := by
    rwa [resolveMarkPrice_set_cancel]
  refine ⟨?_, ?_, ?_, rfl⟩
  · simp [cycleForPair, h401, hs]
  · simp [cycleForPair, h401, hs]
  · simp [cycleForPair, h401]
    rfl

/-- Witness for C10 at `demoPair` with cancel statuses 401 versus 200. -/
theorem cancel_401_nonfatal_witness :
    (cycleForPair 5 demoPair { envOk with cancelStatus := 401 }).requests =
      (cycleForPair 5 demoPair { envOk with cancelStatus := 200 }).requests ∧
    (cycleForPair 5 demoPair { envOk with cancelStatus := 401 }).outcome =
      (cycleForPair 5 demoPair { envOk with cancelStatus := 200 }).outcome ∧
    (cycleForPair 5 demoPair { envOk with cancelStatus := 401 }).cancelSkipped =
      some true ∧
    placeResult 401 = PlaceResult.exit0 :=
  cancel_401_nonfatal 5 demoPair envOk 50000 200 rfl

/-! ### String and encoding lemmas -/

theorem string_data_inj {a b : String} (h : a.data = b.data) : a = b := by
  cases a
  cases b
  exact congrArg String.mk h

theorem string_data_append (a b : String) : (a ++ b).data = a.data ++ b.data := by
  cases a
  cases b
  rfl

theorem joinAmp_append_single : ∀ (parts : List (List Char)) (x : List Char),
    parts ≠ [] → joinAmp (parts ++ [x]) = joinAmp parts ++ '&' :: x
  | [], _, h => absurd rfl h
  | [_], _, _ => rfl
  | p :: q :: ps, x, _ => by
    have ih := joinAmp_append_single (q :: ps) x (by simp)
    simp only [List.cons_append] at ih ⊢
    simp only [joinAmp, ih]
    simp [List.append_assoc]

theorem splitAmp_ne_nil : ∀ l : List Char, splitAmp l ≠ []
  | [] => by simp [splitAmp]
  | c :: rest => by
    rcases h : splitAmp rest with _ | ⟨p, ps⟩
    · simp [splitAmp, h]
    · simp only [splitAmp, h]
      split <;> simp

theorem splitAmp_no_amp : ∀ p : List Char, '&' ∉ p → splitAmp p = [p]
  | [], _ => rfl
  | c :: rest, h => by
    have hc : ¬c = '&' := by
      intro e
      subst e
      exact h (List.mem_cons_self _ _)
    have ih := splitAmp_no_amp rest (fun m => h (List.mem_cons_of_mem c m))
    simp [splitAmp, ih, hc]

theorem splitAmp_break_at_amp : ∀ (p t : List Char), '&' ∉ p →
    splitAmp (p ++ '&' :: t) = p :: splitAmp t
  | [], t, _ => by
    simp only [List.nil_append]
    rcases hsp : splitAmp t with _ | ⟨q, qs⟩
    · exact absurd hsp (splitAmp_ne_nil t)
    · simp [splitAmp, hsp]
  | c :: p, t, h => by
    have hc : ¬c = '&' := by
      intro e
      subst e
      exact h (List.mem_cons_self _ _)
    have ih := splitAmp_break_at_amp p t (fun m => h (List.mem_cons_of_mem c m))
    simp only [List.cons_append]
    simp [splitAmp, ih, hc]

theorem splitAmp_joinAmp : ∀ parts : List (List Char), parts ≠ [] →
    (∀ p ∈ parts, '&' ∉ p) → splitAmp (joinAmp parts) = parts
  | [], h, _ => absurd rfl h
  | [p], _, hfree => by
    simp [joinAmp, splitAmp_no_amp p (hfree p (by simp))]
  | p :: q :: ps, _, hfree => by
    have ih := splitAmp_joinAmp (q :: ps) (by simp)
      (fun r hr => hfree r (List.mem_cons_of_mem _ hr))
    simp only [joinAmp]
    rw [splitAmp_break_at_amp p (joinAmp (q :: ps)) (hfree p (by simp)), ih]

theorem hexDigit_ne_amp (m : Nat) : hexDigit m ≠ '&' := by
  unfold hexDigit
  split <;> decide

theorem amp_not_mem_encChar (c : Char) : '&' ∉ encChar c := by
  unfold encChar
  split
  · rename_i hu
    intro hmem
    rw [List.mem_singleton] at hmem
    rw [← hmem] at hu
    exact absurd hu (by decide)
  · intro hmem
    obtain ⟨b, _, hb⟩ := List.mem_flatMap.mp hmem
    simp only [pctByte, List.mem_cons, List.not_mem_nil, or_false] at hb
    rcases hb with hb | hb | hb
    · exact absurd hb (by decide)
    · exact hexDigit_ne_amp _ hb.symm
    · exact hexDigit_ne_amp _ hb.symm

theorem amp_not_mem_encodeChars (s : List Char) : '&' ∉ encodeChars s := by
  intro h
  obtain ⟨c, _, hc⟩ := List.mem_flatMap.mp h
  exact amp_not_mem_encChar c hc

theorem amp_not_mem_entryChars (kv : String × Option String) : '&' ∉ entryChars kv := by
  obtain ⟨k, v⟩ := kv
  have hk := amp_not_mem_encodeChars k.data
  cases v with
  | none =>
    intro h
    rcases List.mem_append.mp h with h | h
    · exact hk h
    · rcases List.mem_cons.mp h with h | h
      · exact absurd h (by decide)
      · exact absurd h (List.not_mem_nil _)
  | some v =>
    intro h
    rcases List.mem_append.mp h with h | h
    · exact hk h
    · rcases List.mem_cons.mp h with h | h
      · exact absurd h (by decide)
      · exact amp_not_mem_encodeChars v.data h

theorem sortedEntries_amp_free (l : Params) : ∀ q ∈ sortedEntries l, '&' ∉ q := by
  intro q hq
  obtain ⟨kv, _, rfl⟩ := List.mem_map.mp hq
  exact amp_not_mem_entryChars kv

/-! ### Decimal-rendering lemmas -/

theorem decDigit_unreserved (m : Nat) : unreservedChar (decDigit m) = true := by
  unfold decDigit
  split <;> decide

theorem natCharsAux_eq_digitsRec : ∀ (fuel n : Nat) (acc : List Char), n < 10 ^ fuel →
    natCharsAux fuel n acc = digitsRec n ++ acc
  | 0, n, acc, h => by
    have hn : n = 0 := by simpa using Nat.lt_one_iff.mp (by simpa using h)
    subst hn
    simp [natCharsAux, digitsRec]
  | fuel + 1, n, acc, h => by
    by_cases hn : n = 0
    · subst hn
      simp [natCharsAux, digitsRec]
    · obtain ⟨m, rfl⟩ : ∃ m, n = m + 1 := ⟨n - 1, by omega⟩
      have hdiv : (m + 1) / 10 < 10 ^ fuel := by
        rw [Nat.div_lt_iff_lt_mul (by norm_num)]
        calc m + 1 < 10 ^ (fuel + 1) := h
          _ = 10 ^ fuel * 10 := pow_succ 10 fuel
      have ih := natCharsAux_eq_digitsRec fuel ((m + 1) / 10)
        (decDigit ((m + 1) % 10) :: acc) hdiv
      rw [natCharsAux, if_neg hn, ih]
      conv_rhs => rw [digitsRec]
      simp [List.append_assoc]

theorem decVal_decDigit (m : Nat) (h : m < 10) : (decDigit m).toNat - 48 = m := by
  interval_cases m <;> rfl

theorem foldl_digitsRec : ∀ n v : Nat,
    (digitsRec n).foldl (fun a c => a * 10 + (c.toNat - 48)) v =
      v * 10 ^ (digitsRec n).length + n
  | 0, _ => by simp [digitsRec]
  | m + 1, v => by
    have hdm : (m + 1) / 10 * 10 + (m + 1) % 10 = m + 1 := by omega
    have ih := foldl_digitsRec ((m + 1) / 10) v
    rw [digitsRec, List.foldl_append, ih, List.foldl_cons, List.foldl_nil,
      decVal_decDigit _ (Nat.mod_lt _ (by norm_num))]
    rw [List.length_append, List.length_cons, List.length_nil]
    simp only [Nat.zero_add]
    rw [pow_succ]
    have hgen : ∀ d r L10 : Nat, d * 10 + r = m + 1 →
        (v * L10 + d) * 10 + r = v * (L10 * 10) + (m + 1) := by
      intro d r L10 hh
      calc (v * L10 + d) * 10 + r = v * (L10 * 10) + (d * 10 + r) := by ring
        _ = v * (L10 * 10) + (m + 1) := by rw [hh]
    exact hgen _ _ _ hdm
  termination_by n _ => n
  decreasing_by exact Nat.div_lt_self (Nat.succ_pos m) (by norm_num)

theorem natToString_data (n : Nat) (hn : n ≠ 0) : (natToString n).data = digitsRec n := by
  have hlt : n < 10 ^ (n + 1) := by
    have h1 : n < 10 ^ n := Nat.lt_pow_self (by norm_num) n
    exact h1.trans_le (Nat.pow_le_pow_right (by norm_num) (Nat.le_succ n))
  unfold natToString
  rw [if_neg hn]
  show natCharsAux (n + 1) n [] = digitsRec n
  rw [natCharsAux_eq_digitsRec (n + 1) n [] hlt, List.append_nil]

theorem charsToNat_natToString (n : Nat) : charsToNat (natToString n).data = n := by
  by_cases hn : n = 0
  · subst hn
    rfl
  · rw [natToString_data n hn]
    show (digitsRec n).foldl (fun a c => a * 10 + (c.toNat - 48)) 0 = n
    rw [foldl_digitsRec]
    simp

theorem natToString_inj {a b : Nat} (h : natToString a = natToString b) : a = b := by
  have h2 := congrArg (fun s => charsToNat s.data) h
  simpa [charsToNat_natToString] using h2

theorem digitsRec_unreserved : ∀ n : Nat, ∀ c ∈ digitsRec n, unreservedChar c = true
  | 0 => by simp [digitsRec]
  | m + 1 => by
    intro c hc
    rw [digitsRec] at hc
    rcases List.mem_append.mp hc with h | h
    · exact digitsRec_unreserved ((m + 1) / 10) c h
    · rcases List.mem_cons.mp h with rfl | h
      · exact decDigit_unreserved _
      · exact absurd h (List.not_mem_nil _)
  termination_by n => n
  decreasing_by exact Nat.div_lt_self (Nat.succ_pos m) (by norm_num)

theorem natToString_unreserved (n : Nat) :
    ∀ c ∈ (natToString n).data, unreservedChar c = true := by
  by_cases hn : n = 0
  · subst hn
    intro c hc
    rw [show (natToString 0).data = ['0'] from rfl] at hc
    have : c = '0' := by simpa using hc
    subst this
    decide
  · rw [natToString_data n hn]
    exact digitsRec_unreserved n

theorem encodeChars_unreserved : ∀ l : List Char,
    (∀ c ∈ l, unreservedChar c = true) → encodeChars l = l
  | [], _ => rfl
  | c :: rest, h => by
    have hc := h c (List.mem_cons_self c rest)
    have ih := encodeChars_unreserved rest (fun d hd => h d (List.mem_cons_of_mem _ hd))
    simp only [encodeChars, List.flatMap_cons] at ih ⊢
    simp [encChar, hc, ih]

/-! ### Signed-payload structure lemmas -/

theorem dropUnset_withTimestamp (p : Params) (t : Nat) :
    dropUnset (withTimestamp p t) =
      dropUnset (p.filter fun kv => kv.1 ≠ "timestamp") ++
        [("timestamp", some (natToString t))] := by
  simp [withTimestamp, dropUnset, List.filter_append]

theorem sortedEntries_wt_ne_nil (p : Params) (t : Nat) :
    sortedEntries (withTimestamp p t) ≠ [] := by
  intro h
  have h2 : (dropUnset (withTimestamp p t)).insertionSort keyLe = [] :=
    List.map_eq_nil_iff.mp h
  have h3 := List.perm_insertionSort keyLe (dropUnset (withTimestamp p t))
  rw [h2] at h3
  have h4 : dropUnset (withTimestamp p t) = [] := h3.symm.eq_nil
  rw [dropUnset_withTimestamp] at h4
  simp at h4

theorem sig_part_amp_free (s : String) :
    '&' ∉ ("signature=".data ++ encodeChars s.data) := by
  intro h
  rcases List.mem_append.mp h with h | h
  · exact absurd h (by decide)
  · exact amp_not_mem_encodeChars _ h

theorem payload_parts_amp_free (p : Params) (t : Nat) (s : String) :
    ∀ q ∈ sortedEntries (withTimestamp p t) ++
      ["signature=".data ++ encodeChars s.data], '&' ∉ q := by
  intro q hq
  rcases List.mem_append.mp hq with h | h
  · exact sortedEntries_amp_free _ q h
  · rcases List.mem_cons.mp h with rfl | h
    · exact sig_part_amp_free s
    · exact absurd h (List.not_mem_nil _)

theorem signedBody_data (signFn : String → String) (p : Params) (t : Nat) :
    (signedBody signFn p t).data =
      joinAmp (sortedEntries (withTimestamp p t) ++
        ["signature=".data ++ encodeChars (signFn (signingString p t)).data]) := by
  rw [joinAmp_append_single _ _ (sortedEntries_wt_ne_nil p t)]
  show ((signingString p t ++ "&signature=") ++
      encodeURIComponent (signFn (signingString p t))).data = _
  rw [string_data_append, string_data_append]
  show joinAmp (sortedEntries (withTimestamp p t)) ++ "&signature=".data ++
      encodeChars (signFn (signingString p t)).data = _
  rw [show ("&signature=".data : List Char) = '&' :: "signature=".data from rfl]
  simp [List.append_assoc]

theorem signingString_inj (p : Params) {t₁ t₂ : Nat}
    (h : signingString p t₁ = signingString p t₂) : t₁ = t₂ := by
  have hdata : joinAmp (sortedEntries (withTimestamp p t₁)) =
      joinAmp (sortedEntries (withTimestamp p t₂)) := congrArg String.data h
  have hsplit := congrArg splitAmp hdata
  rw [splitAmp_joinAmp _ (sortedEntries_wt_ne_nil p t₁) (sortedEntries_amp_free _),
    splitAmp_joinAmp _ (sortedEntries_wt_ne_nil p t₂) (sortedEntries_amp_free _)] at hsplit
  have hp₁ : (sortedEntries (withTimestamp p t₁)).Perm
      ((dropUnset (withTimestamp p t₁)).map entryChars) :=
    (List.perm_insertionSort keyLe _).map entryChars
  have hp₂ : (sortedEntries (withTimestamp p t₂)).Perm
      ((dropUnset (withTimestamp p t₂)).map entryChars) :=
    (List.perm_insertionSort keyLe _).map entryChars
  rw [← hsplit] at hp₂
  have hperm := hp₁.symm.trans hp₂
  rw [dropUnset_withTimestamp, dropUnset_withTimestamp, List.map_append,
    List.map_append] at hperm
  simp only [List.map_cons, List.map_nil] at hperm
  have hsing := (List.perm_append_left_iff _).mp hperm
  have he : entryChars ("timestamp", some (natToString t₁)) =
      entryChars ("timestamp", some (natToString t₂)) :=
    List.singleton_perm_singleton.mp hsing
  simp only [entryChars] at he
  have h2 := List.append_cancel_left he
  injection h2 with _ h3
  rw [encodeChars_unreserved _ (natToString_unreserved t₁),
    encodeChars_unreserved _ (natToString_unreserved t₂)] at h3
  exact natToString_inj (string_data_inj h3)

/-! ### Scheduler-timing lemma -/

theorem le_tickDuration {x : Nat} : ∀ {l : List Nat}, x ∈ l → x ≤ tickDuration l
  | [], h => absurd h (List.not_mem_nil x)
  | a :: t, h => by
    rcases List.mem_cons.mp h with rfl | h2
    · exact Nat.le_max_left _ _
    · exact (le_tickDuration h2).trans (Nat.le_max_right _ _)

/-! ### Remaining claims -/

/-- C1: canonicalization is deterministic (it is a pure function of the
entry set) and order-independent: two parameter lists holding the same
key-value entries (in any order, keys unique as in a JS object) canonicalize
to the identical string. Unset values are dropped, the rest is sorted by key
and joined as percent-encoded pairs by construction of `buildQS`. -/
theorem canonical_order_independent (l₁ l₂ : Params)
    (hperm : l₁.Perm l₂) (hnd : (l₁.map Prod.fst).Nodup) :
    buildQS l₁ = buildQS l₂ := by
  have hpf : (dropUnset l₁).Perm (dropUnset l₂) := hperm.filter _
  have hnd₁ : ((dropUnset l₁).map Prod.fst).Nodup := by
    have hsub : List.Sublist ((dropUnset l₁).map Prod.fst) (l₁.map Prod.fst) :=
      (List.filter_sublist l₁).map Prod.fst
    exact hnd.sublist hsub
  have hperm₁ := List.perm_insertionSort keyLe (dropUnset l₁)
  have hperm₂ := List.perm_insertionSort keyLe (dropUnset l₂)
  have hps : ((dropUnset l₁).insertionSort keyLe).Perm
      ((dropUnset l₂).insertionSort keyLe) :=
    hperm₁.trans (hpf.trans hperm₂.symm)
  have hnds₁ : (((dropUnset l₁).insertionSort keyLe).map Prod.fst).Nodup :=
    ((hperm₁.map Prod.fst).nodup_iff).mpr hnd₁
  have hnds₂ : (((dropUnset l₂).insertionSort keyLe).map Prod.fst).Nodup :=
    ((hps.map Prod.fst).nodup_iff).mp hnds₁
  have hlt₁ : ((dropUnset l₁).insertionSort keyLe).Pairwise keyLt := by
    have hs := List.sorted_insertionSort keyLe (dropUnset l₁)
    have hne := List.pairwise_map.mp hnds₁
    exact hs.and hne
  have hlt₂ : ((dropUnset l₂).insertionSort keyLe).Pairwise keyLt := by
    have hs := List.sorted_insertionSort keyLe (dropUnset l₂)
    have hne := List.pairwise_map.mp hnds₂
    exact hs.and hne
  haveI : IsAntisymm (String × Option String) keyLt :=
    ⟨fun a b h1 h2 => absurd (string_data_inj (charsLe_antisymm h1.1 h2.1)) h1.2⟩
  have heq : ((dropUnset l₁).insertionSort keyLe) = ((dropUnset l₂).insertionSort keyLe) :=
    @List.eq_of_perm_of_sorted _ keyLt _ _ _ hps hlt₁ hlt₂
  unfold buildQS
  rw [heq]

/-- Witness for C1: two orderings of the same order-parameter set give the
identical canonical string. -/
theorem canonical_order_independent_witness :
    buildQS [("symbol", some "BTCUSDCPERP"), ("side", some "BUY"), ("price", none)] =
      buildQS [("side", some "BUY"), ("symbol", some "BTCUSDCPERP"), ("price", none)] :=
  canonical_order_independent _ _
    (List.Perm.swap _ _ _) (by decide)

/-- C7 (amended): the first cycle runs immediately at startup and, because it
is awaited, always drains before the interval timer is installed; from then
on tick starts are exactly `INTERVAL_MS` apart, and a tick lasts until its
slowest pair settles. The claim's final conjunct is false as stated: the
`setInterval` timer does not wait for the previous tick to drain — tick `k+1`
(for `k ≥ 1`) starts before tick `k` ends exactly when tick `k`'s duration
exceeds the interval. -/
theorem scheduler_timing (intervalMs : Nat) (dur : Nat → Nat) (pairDurs : List Nat)
    (k x : Nat) (hk : 1 ≤ k) (hx : x ∈ pairDurs) :
    tickStart intervalMs (dur 0) 0 = 0 ∧
    tickStart intervalMs (dur 0) (k + 1) = tickStart intervalMs (dur 0) k + intervalMs ∧
    tickEnd intervalMs dur 0 ≤ tickStart intervalMs (dur 0) 1 ∧
    x ≤ tickDuration pairDurs ∧
    (tickStart intervalMs (dur 0) (k + 1) < tickEnd intervalMs dur k ↔
      intervalMs < dur k) := by
  obtain ⟨m, rfl⟩ : ∃ m, k = m + 1 := ⟨k - 1, by omega⟩
  have hmul : (m + 1 + 1) * intervalMs = (m + 1) * intervalMs + intervalMs := by ring
  refine ⟨rfl, ?_, ?_, le_tickDuration hx, ?_⟩
  · show dur 0 + (m + 1 + 1) * intervalMs = dur 0 + (m + 1) * intervalMs + intervalMs
    rw [hmul, Nat.add_assoc]
  · show tickStart intervalMs (dur 0) 0 + dur 0 ≤ dur 0 + 1 * intervalMs
    simp [tickStart]
  · show dur 0 + (m + 1 + 1) * intervalMs <
        dur 0 + (m + 1) * intervalMs + dur (m + 1) ↔ intervalMs < dur (m + 1)
    rw [hmul, ← Nat.add_assoc]
    exact Nat.add_lt_add_iff_left

/-- Witness for C7 (amended) at a 30-second interval. -/
theorem scheduler_timing_witness :
    tickStart 30000 (overlapDurs 0) 0 = 0 ∧
    tickStart 30000 (overlapDurs 0) (1 + 1) = tickStart 30000 (overlapDurs 0) 1 + 30000 ∧
    tickEnd 30000 overlapDurs 0 ≤ tickStart 30000 (overlapDurs 0) 1 ∧
    7 ≤ tickDuration [7, 3] ∧
    (tickStart 30000 (overlapDurs 0) (1 + 1) < tickEnd 30000 overlapDurs 1 ↔
      30000 < overlapDurs 1) :=
  scheduler_timing 30000 overlapDurs [7, 3] 1 7 (by decide) (by decide)

/-- C7 counterexample: with the default 30 s interval, if tick 1 takes 40 s
then tick 2 is scheduled (starts) strictly before tick 1 has drained — the
interval timer does not wait for the running tick, refuting "the next tick is
not scheduled until the current tick has fully drained". -/
theorem scheduler_overlap_counterexample :
    tickStart 30000 (overlapDurs 0) 2 < tickEnd 30000 overlapDurs 1 := by
  decide

/-- C8 (amended): two signed-payload builds over the same business parameters
whose injected millisecond timestamps differ produce different wire payloads,
and the canonical strings being signed differ, hence any injective
(deterministic, collision-free) signing function produces different
signatures. (As originally stated the claim fails for two calls within the
same millisecond — see the counterexample.) -/
theorem fresh_timestamp_payloads (signFn : String → String) (p : Params)
    (t₁ t₂ : Nat) (hinj : Function.Injective signFn) (hne : t₁ ≠ t₂) :
    signedBody signFn p t₁ ≠ signedBody signFn p t₂ ∧
    signFn (signingString p t₁) ≠ signFn (signingString p t₂) := by
  have hqs : signingString p t₁ ≠ signingString p t₂ :=
    fun h => hne (signingString_inj p h)
  refine ⟨fun h => ?_, fun h => hqs (hinj h)⟩
  apply hne
  apply signingString_inj p
  have hdata := congrArg String.data h
  rw [signedBody_data, signedBody_data] at hdata
  have hsplit := congrArg splitAmp hdata
  have e₁ := splitAmp_joinAmp
    (sortedEntries (withTimestamp p t₁) ++
      ["signature=".data ++ encodeChars (signFn (signingString p t₁)).data])
    (by simp) (payload_parts_amp_free p t₁ _)
  have e₂ := splitAmp_joinAmp
    (sortedEntries (withTimestamp p t₂) ++
      ["signature=".data ++ encodeChars (signFn (signingString p t₂)).data])
    (by simp) (payload_parts_amp_free p t₂ _)
  rw [e₁, e₂] at hsplit
  have hparts := (List.append_inj' hsplit rfl).1
  have hjoin : joinAmp (sortedEntries (withTimestamp p t₁)) =
      joinAmp (sortedEntries (withTimestamp p t₂)) := by rw [hparts]
  exact @string_data_inj (signingString p t₁) (signingString p t₂) hjoin

/-- Witness for C8 (amended): timestamps 1 and 2 give different payloads and
different signing inputs under the injective stand-in signer. -/
theorem fresh_timestamp_payloads_witness :
    signedBody idSign demoParams 1 ≠ signedBody idSign demoParams 2 ∧
    idSign (signingString demoParams 1) ≠ idSign (signingString demoParams 2) :=
  fresh_timestamp_payloads idSign demoParams 1 2 (fun _ _ h => h) (by decide)

/-- C8 counterexample: the claim as stated ("two calls with identical
business parameters produce different wire payloads and different
signatures") fails when the two calls fall in the same millisecond: the
injected timestamps coincide, so the payloads and signatures are
byte-identical. The explicit payload shows the evaluation is real. -/
theorem same_millisecond_counterexample :
    signedBody idSign demoParams 1700000000000 =
      signedBody idSign demoParams 1700000000000 ∧
    signedBody idSign demoParams 1700000000000 =
      "symbol=BTCUSDCPERP&timestamp=1700000000000&signature=symbol%3DBTCUSDCPERP%26timestamp%3D1700000000000" := by
  exact ⟨rfl, by decide⟩
